import Mathlib

/-!
Verification of the UDUNITS-2 converter module (`lib/converter.h`).

The repository provides only the interface header; the behaviour of each
operation is documented there and in the specification.  The implementation
is therefore modelled here from those documents: converters form a small
tagged variant type (`Transform`), constructors validate their arguments,
composition performs trivial-elimination, evaluation is a recursive walk of
the tree, array conversion is a sequential in-order loop over an addressed
memory, and the expression renderer walks the tree producing a formula.

Doubles stored as converter parameters are modelled as rationals (every
finite IEEE double is a binary rational); arithmetic during evaluation is
modelled exactly, over the real numbers.
-/

namespace Udunits

/-- Modelled from the spec: the `cv_converter` union of `converter.h` (the
defining implementation file `converter.c` is not in the repository).  One
variant per converter kind: Trivial, Inverse, Scale, Offset, Galilean, Log,
Pow, Compose. -/
inductive Transform : Type
  | trivial : Transform
  | inverse : Transform
  | scale (slope : ℚ) : Transform
  | offset (intercept : ℚ) : Transform
  | galilean (slope intercept : ℚ) : Transform
  | log (base : ℚ) : Transform
  | pow (base : ℚ) : Transform
  | compose (first second : Transform) : Transform
  deriving DecidableEq

/-- Modelled from the spec: `cv_convert_double` — recursive evaluation of a
converter at a double value, per the evaluation table (Trivial `y = x`,
Inverse `y = 1/x`, Scale `y = slope*x`, Offset `y = x + intercept`,
Galilean `y = slope*x + intercept`, Log `y = log_base x`, Pow `y = base^x`,
Compose `y = second(first(x))`). -/
noncomputable def cv_convert_double (conv : Transform) (x : ℝ) : ℝ :=
  match conv with
  | .trivial => x
  | .inverse => 1 / x
  | .scale a => (a : ℝ) * x
  | .offset b => x + (b : ℝ)
  | .galilean a b => (a : ℝ) * x + (b : ℝ)
  | .log b => Real.logb (b : ℝ) x
  | .pow b => (b : ℝ) ^ x
  | .compose f s => cv_convert_double s (cv_convert_double f x)

/-- Modelled from the spec: `cv_convert_float` — single-precision conversion
may use double-precision arithmetic internally and narrow at the end; in
this exact-arithmetic model it coincides with `cv_convert_double`. -/
noncomputable def cv_convert_float (conv : Transform) (x : ℝ) : ℝ :=
  cv_convert_double conv x

/-- Modelled from the spec: `cv_get_trivial` — the trivial converter. -/
def cv_get_trivial : Transform := Transform.trivial

/-- Modelled from the spec: `cv_get_inverse` — the reciprocal converter. -/
def cv_get_inverse : Transform := Transform.inverse

/-- Modelled from the spec: `cv_get_scale` — scaling converter `y = a*x`;
succeeds for any finite slope. -/
def cv_get_scale (slope : ℚ) : Transform := Transform.scale slope

/-- Modelled from the spec: `cv_get_offset` — offset converter `y = x + b`;
succeeds for any finite intercept. -/
def cv_get_offset (intercept : ℚ) : Transform := Transform.offset intercept

/-- Modelled from the spec: `cv_get_galilean` — Galilean converter
`y = a*x + b`; succeeds for any finite slope and intercept. -/
def cv_get_galilean (slope intercept : ℚ) : Transform :=
  Transform.galilean slope intercept

/-- Modelled from the spec: `cv_get_log` — logarithmic converter; fails
(returns no converter) unless the base is strictly greater than one.
Out-of-memory failure is not modelled. -/
def cv_get_log (base : ℚ) : Option Transform :=
  if 1 < base then some (Transform.log base) else none

/-- Modelled from the spec: `cv_get_pow` — exponential converter; fails
(returns no converter) unless the base is strictly positive.
Out-of-memory failure is not modelled. -/
def cv_get_pow (base : ℚ) : Option Transform :=
  if 0 < base then some (Transform.pow base) else none

/-- Modelled from the spec: the core of `cv_combine` on two present
converters — trivial-elimination in order (first trivial: return second;
else second trivial: return first; else a new Compose node owning both). -/
def combine : Transform → Transform → Transform
  | .trivial, second => second
  | first, .trivial => first
  | first, second => Transform.compose first second

/-- Modelled from the spec: `cv_combine` — fails (returns no converter)
when either input converter is absent (null). -/
def cv_combine : Option Transform → Option Transform → Option Transform
  | some f, some s => some (combine f s)
  | _, _ => none

/-- An addressed memory of double slots, for modelling array conversion
with possibly aliased input and output buffers. -/
def Mem : Type := ℕ → ℝ

/-- Write one value into a memory slot. -/
def writeMem (m : Mem) (a : ℕ) (v : ℝ) : Mem :=
  fun i => if i = a then v else m i

/-- Modelled from the spec: the loop of `cv_convert_doubles` — for
`i = 0 .. count-1` in order, read the input element at `inBase + i`, convert
it, and write the result at `outBase + i`. -/
noncomputable def convertSeq (conv : Transform) : ℕ → ℕ → ℕ → Mem → Mem
  | _, _, 0, mem => mem
  | inBase, outBase, n + 1, mem =>
      convertSeq conv (inBase + 1) (outBase + 1) n
        (writeMem mem outBase (cv_convert_double conv (mem inBase)))

/-- Modelled from the spec: `cv_convert_doubles` — returns null exactly when
the output buffer is null; otherwise runs the conversion loop and returns
the caller's output pointer together with the updated memory. -/
noncomputable def cv_convert_doubles (conv : Transform) (inBase : ℕ)
    (count : ℕ) (out : Option ℕ) (mem : Mem) : Option (ℕ × Mem) :=
  match out with
  | none => none
  | some o => some (o, convertSeq conv inBase o count mem)

/-- Modelled from the spec: `cv_convert_floats` — same contract as
`cv_convert_doubles` over single-precision buffers (modelled with the same
exact-arithmetic memory). -/
noncomputable def cv_convert_floats (conv : Transform) (inBase : ℕ)
    (count : ℕ) (out : Option ℕ) (mem : Mem) : Option (ℕ × Mem) :=
  match out with
  | none => none
  | some o => some (o, convertSeq conv inBase o count mem)

/-- Modelled from the spec: rendering of the Scale component — `a * x`,
omitting the literal multiplier when it is exactly 1.  Numeric-literal
formatting (shortest round-trippable decimal) is abstracted as `fmt`. -/
def renderScale (fmt : ℚ → String) (a : ℚ) (v : String) : String :=
  if a = 1 then v else fmt a ++ " * " ++ v

/-- Modelled from the spec: rendering of the Offset component — `x + b`,
omitted when the intercept is exactly 0, `x - |b|` when it is negative. -/
def renderOffset (fmt : ℚ → String) (b : ℚ) (v : String) : String :=
  if b = 0 then v
  else if b < 0 then v ++ " - " ++ fmt (-b)
  else v ++ " + " ++ fmt b

/-- Modelled from the spec: the expression renderer — walks the tree,
substituting the rendered first component as the variable of the second for
Compose nodes. -/
def render (fmt : ℚ → String) : Transform → String → String
  | .trivial, v => v
  | .inverse, v => "1 / (" ++ v ++ ")"
  | .scale a, v => renderScale fmt a v
  | .offset b, v => renderOffset fmt b v
  | .galilean a b, v => renderOffset fmt b (renderScale fmt a v)
  | .log b, v => "log_" ++ fmt b ++ "(" ++ v ++ ")"
  | .pow b, v => fmt b ++ "^(" ++ v ++ ")"
  | .compose f s, v => render fmt s (render fmt f v)

/-- Modelled from the spec: `cv_get_expression` — formats the expression
into a bounded buffer of capacity `max` (at most `max - 1` characters are
written, as with `snprintf`), and returns the number of characters the full
expression would occupy, independent of truncation.  The result is the
written buffer contents paired with the returned length. -/
def cv_get_expression (fmt : ℚ → String) (conv : Transform) (max : ℕ)
    (varName : String) : String × Int :=
  let e := render fmt conv varName
  (e.take (max - 1), Int.ofNat e.length)

/-- C1: applying `combine f s` to any value `x` equals applying `s` to the
result of applying `f` to `x`; in particular `combine (scale a) (scale b)`
applied to `x` yields `b * (a * x)`. -/
theorem combine_applies_in_sequence :
    (∀ (f s : Transform) (x : ℝ),
      cv_convert_double (combine f s) x =
        cv_convert_double s (cv_convert_double f x)) ∧
    (∀ (a b : ℚ) (x : ℝ),
      cv_convert_double (combine (cv_get_scale a) (cv_get_scale b)) x =
        (b : ℝ) * ((a : ℝ) * x)) := by
  constructor
  · intro f s x
    cases f <;> cases s <;> simp [combine, cv_convert_double]
  · intro a b x
    simp [combine, cv_get_scale, cv_convert_double]

/-- C2: combining the trivial converter with any converter `t`, on either
side, returns `t` itself unchanged, hence is observably equivalent to `t`
for both evaluation and expression rendering. -/
theorem combine_trivial_is_identity :
    ∀ t : Transform,
      combine Transform.trivial t = t ∧
      combine t Transform.trivial = t ∧
      (∀ x : ℝ, cv_convert_double (combine Transform.trivial t) x =
        cv_convert_double t x) ∧
      (∀ x : ℝ, cv_convert_double (combine t Transform.trivial) x =
        cv_convert_double t x) ∧
      (∀ (fmt : ℚ → String) (v : String),
        render fmt (combine Transform.trivial t) v = render fmt t v) ∧
      (∀ (fmt : ℚ → String) (v : String),
        render fmt (combine t Transform.trivial) v = render fmt t v) := by
  intro t
  have h1 : combine Transform.trivial t = t := by cases t <;> rfl
  have h2 : combine t Transform.trivial = t := by cases t <;> rfl
  exact ⟨h1, h2, fun x => by rw [h1], fun x => by rw [h2],
    fun fmt v => by rw [h1], fun fmt v => by rw [h2]⟩

/-- C3: applying the Galilean converter `galilean a b` to any value `x`
yields `a * x + b`. -/
theorem galilean_applies_affine :
    ∀ (a b : ℚ) (x : ℝ),
      cv_convert_double (cv_get_galilean a b) x = (a : ℝ) * x + (b : ℝ) := by
  intro a b x
  rfl

/-- C4: `cv_get_log` fails for every base not strictly greater than one
(in particular 1 and 1/2) and succeeds for every base greater than one;
the converter for base 2 applied to 8 yields 3. -/
theorem get_log_domain :
    (∀ base : ℚ, base ≤ 1 → cv_get_log base = none) ∧
    (∀ base : ℚ, 1 < base → cv_get_log base = some (Transform.log base)) ∧
    cv_get_log 1 = none ∧
    cv_get_log (1 / 2) = none ∧
    cv_get_log 2 = some (Transform.log 2) ∧
    cv_convert_double (Transform.log 2) 8 = 3 := by
  have hfail : ∀ base : ℚ, base ≤ 1 → cv_get_log base = none := fun base h => by
    simp only [cv_get_log, if_neg (not_lt.mpr h)]
  have hok : ∀ base : ℚ, 1 < base → cv_get_log base = some (Transform.log base) :=
    fun base h => by simp only [cv_get_log, if_pos h]
  refine ⟨hfail, hok, hfail 1 le_rfl, hfail (1 / 2) (by norm_num),
    hok 2 (by norm_num), ?_⟩
  show Real.logb ((2 : ℚ) : ℝ) 8 = 3
  have h2 : ((2 : ℚ) : ℝ) = 2 := by norm_num
  have h8 : (8 : ℝ) = (2 : ℝ) ^ (3 : ℝ) := by
    rw [show (3 : ℝ) = ((3 : ℕ) : ℝ) by norm_num, Real.rpow_natCast]
    norm_num
  rw [h2, h8, Real.logb_rpow (by norm_num) (by norm_num)]

/-- Witness for C4 at concrete bases 3 (succeeds) and 0 (fails). -/
theorem get_log_domain_witness :
    cv_get_log 3 = some (Transform.log 3) ∧ cv_get_log 0 = none :=
  ⟨get_log_domain.2.1 3 (by norm_num), get_log_domain.1 0 (by norm_num)⟩

/-- C5: `cv_get_pow` fails for every base not strictly positive (in
particular 0 and -1) and succeeds for every base greater than zero; the
converter for base 2 applied to 3 yields 8. -/
theorem get_pow_domain :
    (∀ base : ℚ, base ≤ 0 → cv_get_pow base = none) ∧
    (∀ base : ℚ, 0 < base → cv_get_pow base = some (Transform.pow base)) ∧
    cv_get_pow 0 = none ∧
    cv_get_pow (-1) = none ∧
    cv_get_pow 2 = some (Transform.pow 2) ∧
    cv_convert_double (Transform.pow 2) 3 = 8 := by
  have hfail : ∀ base : ℚ, base ≤ 0 → cv_get_pow base = none := fun base h => by
    simp only [cv_get_pow, if_neg (not_lt.mpr h)]
  have hok : ∀ base : ℚ, 0 < base → cv_get_pow base = some (Transform.pow base) :=
    fun base h => by simp only [cv_get_pow, if_pos h]
  refine ⟨hfail, hok, hfail 0 le_rfl, hfail (-1) (by norm_num),
    hok 2 (by norm_num), ?_⟩
  show ((2 : ℚ) : ℝ) ^ (3 : ℝ) = 8
  have h2 : ((2 : ℚ) : ℝ) = 2 := by norm_num
  rw [h2, show (3 : ℝ) = ((3 : ℕ) : ℝ) by norm_num, Real.rpow_natCast]
  norm_num

/-- Witness for C5 at concrete bases 3 (succeeds) and -2 (fails). -/
theorem get_pow_domain_witness :
    cv_get_pow 3 = some (Transform.pow 3) ∧ cv_get_pow (-2) = none :=
  ⟨get_pow_domain.2.1 3 (by norm_num), get_pow_domain.1 (-2) (by norm_num)⟩

/-- C6: `cv_combine` fails, producing no converter, whenever either input
converter is absent (null). -/
theorem combine_null_input_fails :
    (∀ s : Option Transform, cv_combine none s = none) ∧
    (∀ f : Option Transform, cv_combine f none = none) := by
  constructor
  · intro s
    cases s <;> rfl
  · intro f
    cases f <;> rfl

/-- C7: array conversion fails exactly when the output buffer is absent
(null), and a zero count is a no-op returning the output buffer with the
memory unchanged, for both `cv_convert_doubles` and `cv_convert_floats`. -/
theorem convert_arrays_null_out_and_zero_count :
    (∀ (conv : Transform) (inBase count : ℕ) (mem : Mem),
      cv_convert_doubles conv inBase count none mem = none) ∧
    (∀ (conv : Transform) (inBase count o : ℕ) (mem : Mem),
      (cv_convert_doubles conv inBase count (some o) mem).isSome = true) ∧
    (∀ (conv : Transform) (inBase o : ℕ) (mem : Mem),
      cv_convert_doubles conv inBase 0 (some o) mem = some (o, mem)) ∧
    (∀ (conv : Transform) (inBase count : ℕ) (mem : Mem),
      cv_convert_floats conv inBase count none mem = none) ∧
    (∀ (conv : Transform) (inBase count o : ℕ) (mem : Mem),
      (cv_convert_floats conv inBase count (some o) mem).isSome = true) ∧
    (∀ (conv : Transform) (inBase o : ℕ) (mem : Mem),
      cv_convert_floats conv inBase 0 (some o) mem = some (o, mem)) := by
  refine ⟨fun conv inBase count mem => rfl,
    fun conv inBase count o mem => rfl,
    fun conv inBase o mem => rfl,
    fun conv inBase count mem => rfl,
    fun conv inBase count o mem => rfl,
    fun conv inBase o mem => rfl⟩

/-- C10: with a present output buffer, `cv_convert_doubles` and
`cv_convert_floats` return exactly the output pointer the caller passed
in, never a different buffer. -/
theorem convert_arrays_return_caller_buffer :
    ∀ (conv : Transform) (inBase count o : ℕ) (mem : Mem),
      (cv_convert_doubles conv inBase count (some o) mem).map Prod.fst =
        some o ∧
      (cv_convert_floats conv inBase count (some o) mem).map Prod.fst =
        some o := by
  intro conv inBase count o mem
  exact ⟨rfl, rfl⟩

/-- The conversion loop never changes a slot below the output range. -/
theorem convertSeq_untouched_below (conv : Transform) :
    ∀ (count inBase outBase a : ℕ) (mem : Mem), a < outBase →
      convertSeq conv inBase outBase count mem a = mem a := by
  intro count
  induction count with
  | zero => intro inBase outBase a mem _; rfl
  | succ n ih =>
      intro inBase outBase a mem h
      simp only [convertSeq]
      rw [ih (inBase + 1) (outBase + 1) a _ (Nat.lt_succ_of_lt h)]
      simp [writeMem, Nat.ne_of_lt h]

/-- With the output buffer identical to the input buffer, each output slot
receives the conversion of the original input value at the same index. -/
theorem convertSeq_alias_result (conv : Transform) :
    ∀ (count base i : ℕ) (mem : Mem), i < count →
      convertSeq conv base base count mem (base + i) =
        cv_convert_double conv (mem (base + i)) := by
  intro count
  induction count with
  | zero => intro base i mem h; exact absurd h (Nat.not_lt_zero i)
  | succ n ih =>
      intro base i mem h
      simp only [convertSeq]
      cases i with
      | zero =>
          simp only [Nat.add_zero]
          rw [convertSeq_untouched_below conv n (base + 1) (base + 1) base _
            (Nat.lt_succ_self base)]
          simp [writeMem]
      | succ j =>
          have hj : j < n := by omega
          have heq : base + (j + 1) = base + 1 + j := by omega
          rw [heq, ih (base + 1) j _ hj]
          have hne : base + 1 + j ≠ base := by omega
          simp [writeMem, hne]

/-- With an output buffer disjoint from (entirely above) the input range,
each output slot receives the conversion of the input value at the same
index. -/
theorem convertSeq_disjoint_result (conv : Transform) :
    ∀ (count inBase outBase i : ℕ) (mem : Mem),
      i < count → inBase + count ≤ outBase →
      convertSeq conv inBase outBase count mem (outBase + i) =
        cv_convert_double conv (mem (inBase + i)) := by
  intro count
  induction count with
  | zero => intro inBase outBase i mem h _; exact absurd h (Nat.not_lt_zero i)
  | succ n ih =>
      intro inBase outBase i mem h hdisj
      simp only [convertSeq]
      cases i with
      | zero =>
          simp only [Nat.add_zero]
          rw [convertSeq_untouched_below conv n (inBase + 1) (outBase + 1) outBase _
            (Nat.lt_succ_self outBase)]
          simp [writeMem]
      | succ j =>
          have hj : j < n := by omega
          have heq : outBase + (j + 1) = outBase + 1 + j := by omega
          rw [heq, ih (inBase + 1) (outBase + 1) j _ hj (by omega)]
          have harg : inBase + 1 + j = inBase + (j + 1) := by omega
          rw [harg]
          have hne : inBase + (j + 1) ≠ outBase := by omega
          simp [writeMem, hne]

/-- A concrete memory used for the aliasing counterexample and witness. -/
noncomputable def exMem : Mem :=
  fun i => if i = 0 then 1 else if i = 1 then 5 else 0

/-- C8 counterexample: with partially overlapping buffers (output base 1,
input base 0, count 2), the scale-by-2 conversion writes a different value
into output slot 1 than conversion into a distinct buffer (base 10) does:
the claim as stated fails for overlapping buffers. -/
theorem convert_overlap_not_equivalent :
    ¬ (convertSeq (Transform.scale 2) 0 1 2 exMem (1 + 1) =
        convertSeq (Transform.scale 2) 0 10 2 exMem (10 + 1)) := by
  simp only [convertSeq, writeMem, exMem, cv_convert_double]
  norm_num

/-- C8 amended: with the output buffer being the same buffer as the input
(identical base address), conversion produces, element by element, exactly
the same results as conversion of the same input into a distinct
non-overlapping buffer. -/
theorem convert_alias_same_as_distinct :
    ∀ (conv : Transform) (count base outBase : ℕ) (mem : Mem) (i : ℕ),
      i < count → base + count ≤ outBase →
      convertSeq conv base base count mem (base + i) =
        convertSeq conv base outBase count mem (outBase + i) := by
  intro conv count base outBase mem i h hd
  rw [convertSeq_alias_result conv count base i mem h,
    convertSeq_disjoint_result conv count base outBase i mem h hd]

/-- Witness for C8 amended at a concrete converter, memory and indices. -/
theorem convert_alias_same_as_distinct_witness :
    0 < 1 ∧ 0 + 1 ≤ 5 ∧
      convertSeq (Transform.offset 1) 0 0 1 exMem (0 + 0) =
        convertSeq (Transform.offset 1) 0 5 1 exMem (5 + 0) :=
  ⟨by decide, by decide,
    convert_alias_same_as_distinct (Transform.offset 1) 1 0 5 exMem 0
      (by decide) (by decide)⟩

/-- C9: `cv_get_expression` returns the number of characters of the fully
formatted expression (excluding any terminator), independently of the
buffer capacity supplied and of any truncation it causes; in this model
formatting itself cannot fail and the returned length is never negative. -/
theorem get_expression_reports_full_length :
    ∀ (fmt : ℚ → String) (conv : Transform) (cap1 cap2 : ℕ)
      (varName : String),
      (cv_get_expression fmt conv cap1 varName).2 =
        Int.ofNat (render fmt conv varName).length ∧
      (cv_get_expression fmt conv cap1 varName).2 =
        (cv_get_expression fmt conv cap2 varName).2 ∧
      0 ≤ (cv_get_expression fmt conv cap1 varName).2 := by
  intro fmt conv cap1 cap2 varName
  exact ⟨rfl, rfl, Int.ofNat_nonneg _⟩

end Udunits
